import Mathlib

/-!
Verification of the knowledge-base and translator layer of the aws-nova
repository (app/knowledge_base.py and app/translator.py).

The JSON documents are embedded as Lean structures.  Optional JSON keys
read through dict.get with a default are folded into total fields carrying
that default; keys whose value is tested for Python truthiness are kept as
Option types, with none standing for an absent key or an empty (falsy)
object.  Python str.lower is modelled per character, the in operator on
strings as a contiguous-sublist test on the character lists, and sep.join
as joinSep.  Every modelled operation is a total Lean function, which is
the embedding of the fact that the source operations never raise on the
data shapes described by the specification.
-/

/-- Boolean test that the first character list is a prefix of the second. -/
def prefOf : List Char → List Char → Bool
  | [], _ => true
  | _ :: _, [] => false
  | a :: as, b :: bs => a == b && prefOf as bs

/-- Boolean contiguous-sublist test: true when the needle occurs inside the
haystack, matching the Python in operator on strings. -/
def subOf (needle : List Char) : List Char → Bool
  | [] => needle.isEmpty
  | c :: rest => prefOf needle (c :: rest) || subOf needle rest

/-- Python substring containment: needle in hay. -/
def containsSub (hay needle : String) : Bool :=
  subOf needle.data hay.data

/-- Python str.lower, modelled as per-character lowercasing. -/
def lowerStr (s : String) : String :=
  ⟨s.data.map Char.toLower⟩

/-- Python sep.join over a list of strings. -/
def joinSep (sep : String) : List String → String
  | [] => ""
  | [a] => a
  | a :: b :: rest => a ++ sep ++ joinSep sep (b :: rest)

/-- One dictionary entry: source-language term (spanish), target-language
term (awajun) and an optional usage-context note. -/
structure Entry where
  awajun : String
  spanish : String
  context : Option String
deriving DecidableEq

/-- The parenthesised context-note suffix of a formatted entry line,
rendered only when the note is present and non-empty, which is the Python
truthiness test on entry.get applied to the context key. -/
def ctxSuffix : Option String → String
  | none => ""
  | some c => if c = "" then "" else " (" ++ c ++ ")"

/-- The bare two-term line of an entry, as rendered by the full-vocabulary
context loop in get_all_vocabulary_context. -/
def pairLine (e : Entry) : String :=
  "  " ++ e.awajun ++ " = " ++ e.spanish

/-- The fully formatted line of an entry, with the optional context note,
as rendered by search_dictionary and get_category_vocabulary. -/
def entryLine (e : Entry) : String :=
  pairLine e ++ ctxSuffix e.context

/-- A non-empty category record: an optional display name (name_es) and the
ordered entry list, both read with defaults in the source. -/
structure Category where
  name_es : Option String
  entries : List Entry
deriving DecidableEq

/-- The dictionary document: the categories mapping as key/record pairs in
insertion (iteration) order.  A record of none stands for a category whose
value is the empty JSON object, which Python treats as falsy.  A document
without a categories key loads as the empty list, since the source reads it
through dict.get with an empty-object default. -/
structure Dictionary where
  categories : List (String × Option Category)
deriving DecidableEq

/-- Python category.get applied to the entries key with default empty list. -/
def entriesOfRec : Option Category → List Entry
  | none => []
  | some c => c.entries

/-- Python category.get applied to the name_es key with the category key as
default. -/
def catName (key : String) : Option Category → String
  | none => key
  | some c => c.name_es.getD key

/-- Python categories.get with empty-object default, composed with the
falsiness test of the source: none when the key is absent or its record is
the empty object. -/
def lookupCat (cats : List (String × Option Category)) (key : String) : Option Category :=
  match cats.find? (fun kc => kc.1 == key) with
  | none => none
  | some kc => kc.2

/-- All category keys in iteration order, as categories.keys(). -/
def keysOf (d : Dictionary) : List String :=
  d.categories.map (fun kc => kc.1)

/-- Case-insensitive match of an already lowercased query against one
entry: the query occurs in the lowercased target term or in the lowercased
source term. -/
def entryMatches (qLower : String) (e : Entry) : Bool :=
  containsSub (lowerStr e.awajun) qLower || containsSub (lowerStr e.spanish) qLower

/-- One step of the search loop body: append the formatted line when the
entry matches, otherwise keep the accumulator unchanged. -/
def searchStep (qLower : String) (e : Entry) (acc : List String) : List String :=
  if entryMatches qLower e then acc ++ [entryLine e] else acc

/-- The inner loop of search_dictionary over one category's entries.  After
each entry the source compares the accumulated length against maxResults
and breaks out of this inner loop only. -/
def searchCat (qLower : String) (maxResults : Nat) : List Entry → List String → List String
  | [], acc => acc
  | e :: rest, acc =>
    if maxResults ≤ (searchStep qLower e acc).length then searchStep qLower e acc
    else searchCat qLower maxResults rest (searchStep qLower e acc)

/-- The outer loop of search_dictionary over the categories.  The break in
the source does not leave this outer loop, so later categories continue to
be scanned with the already full accumulator. -/
def searchAll (qLower : String) (maxResults : Nat) : List (String × Option Category) → List String → List String
  | [], acc => acc
  | kc :: rest, acc => searchAll qLower maxResults rest (searchCat qLower maxResults (entriesOfRec kc.2) acc)

/-- The list of formatted result lines collected by search_dictionary. -/
def searchResults (d : Dictionary) (query : String) (maxResults : Nat) : List String :=
  searchAll (lowerStr query) maxResults d.categories []

/-- KnowledgeBase.search_dictionary.  The source gives maxResults the
default value 10. -/
def search_dictionary (d : Dictionary) (query : String) (maxResults : Nat) : String :=
  if (searchResults d query maxResults).isEmpty then "No se encontraron entradas relevantes."
  else joinSep ("\n") (searchResults d query maxResults)

/-- The soft-error message returned for an unknown or empty category: it
names the requested key and lists every available category key joined by a
comma and a space. -/
def notFoundMsg (d : Dictionary) (category : String) : String :=
  "Categoría \x27" ++ category ++ "\x27 no encontrada. Disponibles: " ++ joinSep (", ") (keysOf d)

/-- KnowledgeBase.get_category_vocabulary. -/
def get_category_vocabulary (d : Dictionary) (category : String) : String :=
  match lookupCat d.categories category with
  | none => notFoundMsg d category
  | some cat => joinSep ("\n") (("## " ++ cat.name_es.getD category) :: cat.entries.map entryLine)

/-- The lines list built by the loop of get_all_vocabulary_context: one
bracketed category header followed by the bare term pairs of that
category, for every category in iteration order. -/
def allVocabLines : List (String × Option Category) → List String
  | [] => []
  | kc :: rest => ("\n[" ++ catName kc.1 kc.2 ++ "]") :: ((entriesOfRec kc.2).map pairLine ++ allVocabLines rest)

/-- KnowledgeBase.get_all_vocabulary_context. -/
def get_all_vocabulary_context (d : Dictionary) : String :=
  joinSep ("\n") (allVocabLines d.categories)

/-- One example pair of the word-order grammar section. -/
structure WordOrderExample where
  awajun : String
  spanish_natural : String
deriving DecidableEq

/-- The word-order grammar section; basic and description are read with an
empty-string default, examples with an empty-list default. -/
structure WordOrder where
  basic : String
  description : String
  examples : List WordOrderExample
deriving DecidableEq

/-- The verb-conjugation grammar section with its suffix table in
iteration order. -/
structure VerbConjugation where
  description : String
  present_tense_suffixes : List (String × String)
deriving DecidableEq

/-- One common-suffix record of the grammar document.  The field ex models
the example key of the source data, renamed because example is a reserved
word in Lean. -/
structure SuffixEntry where
  suffix : String
  meaning : String
  ex : String
deriving DecidableEq

/-- The common-suffix grammar section. -/
structure SuffixSection where
  common_suffixes : List SuffixEntry
deriving DecidableEq

/-- The negation grammar section; description is read with an empty-string
default. -/
structure Negation where
  description : String
deriving DecidableEq

/-- The grammar document when it is non-empty.  Each section is none when
its key is absent or maps to an empty (falsy) object, matching the
per-section truthiness tests of the source. -/
structure Grammar where
  word_order : Option WordOrder
  verb_conjugation : Option VerbConjugation
  suffixes : Option SuffixSection
  negation : Option Negation
deriving DecidableEq

/-- The word-order lines contributed to the grammar context when the
section is present. -/
def woLines : Option WordOrder → List String
  | none => []
  | some wo =>
    ("ORDEN DE PALABRAS: " ++ wo.basic ++ " - " ++ wo.description)
      :: wo.examples.map (fun exm => "  Ejemplo: " ++ exm.awajun ++ " = " ++ exm.spanish_natural)

/-- The verb-conjugation lines contributed to the grammar context when the
section is present. -/
def vcLines : Option VerbConjugation → List String
  | none => []
  | some vc =>
    ("\nCONJUGACIÓN: " ++ vc.description)
      :: vc.present_tense_suffixes.map (fun st => "  " ++ st.1 ++ ": " ++ st.2)

/-- The common-suffix lines contributed to the grammar context when the
section is present. -/
def sufLines : Option SuffixSection → List String
  | none => []
  | some ss =>
    "\nSUFIJOS COMUNES:"
      :: ss.common_suffixes.map (fun s => "  " ++ s.suffix ++ ": " ++ s.meaning ++ " (ej: " ++ s.ex ++ ")")

/-- The negation line contributed to the grammar context when the section
is present. -/
def negLines : Option Negation → List String
  | none => []
  | some n => ["\nNEGACIÓN: " ++ n.description]

/-- KnowledgeBase.get_grammar_context.  A grammar document of none is the
empty (falsy) JSON object, for which the source returns the sentinel
before looking at any section; otherwise the lines list is accumulated
section by section exactly as in the source and joined with newlines. -/
def get_grammar_context : Option Grammar → String
  | none => "No hay reglas gramaticales disponibles."
  | some gr =>
    let lines : List String := []
    let lines : List String :=
      match gr.word_order with
      | none => lines
      | some wo =>
        (lines ++ ["ORDEN DE PALABRAS: " ++ wo.basic ++ " - " ++ wo.description])
          ++ wo.examples.map (fun exm => "  Ejemplo: " ++ exm.awajun ++ " = " ++ exm.spanish_natural)
    let lines : List String :=
      match gr.verb_conjugation with
      | none => lines
      | some vc =>
        (lines ++ ["\nCONJUGACIÓN: " ++ vc.description])
          ++ vc.present_tense_suffixes.map (fun st => "  " ++ st.1 ++ ": " ++ st.2)
    let lines : List String :=
      match gr.suffixes with
      | none => lines
      | some ss =>
        (lines ++ ["\nSUFIJOS COMUNES:"])
          ++ ss.common_suffixes.map (fun s => "  " ++ s.suffix ++ ": " ++ s.meaning ++ " (ej: " ++ s.ex ++ ")")
    let lines : List String :=
      match gr.negation with
      | none => lines
      | some n => lines ++ ["\nNEGACIÓN: " ++ n.description]
    joinSep ("\n") lines

/-- One phrase record: source text, target text and an optional
pronunciation guide. -/
structure Phrase where
  spanish : String
  awajun : String
  pronunciation_guide : Option String
deriving DecidableEq

/-- The phrase document with its three fixed sections; an absent section
loads as the empty list through dict.get. -/
structure Phrases where
  classroom_phrases : List Phrase
  daily_interaction : List Phrase
  cultural_expressions : List Phrase
deriving DecidableEq

/-- Case-insensitive match of an already lowercased query against one
phrase: the query occurs in the lowercased source text or in the
lowercased target text. -/
def phraseMatches (qLower : String) (ph : Phrase) : Bool :=
  containsSub (lowerStr ph.spanish) qLower || containsSub (lowerStr ph.awajun) qLower

/-- The first rendered line of a matched phrase: the source text and the
target text on two physical lines inside one list element. -/
def phraseFirstLine (ph : Phrase) : String :=
  "  ES: " ++ ph.spanish ++ "\n" ++ "  AW: " ++ ph.awajun

/-- The full block of list elements appended for one matched phrase: the
two-language line, the pronunciation line when the guide is present and
non-empty, and a trailing empty element. -/
def phraseBlock (ph : Phrase) : List String :=
  phraseFirstLine ph
    :: ((match ph.pronunciation_guide with
         | none => []
         | some g => if g = "" then [] else ["  Pronunciación: " ++ g]) ++ [""])

/-- One step of the phrase-matching loop body. -/
def phraseStep (qLower : String) (ph : Phrase) (acc : List String) : List String :=
  if phraseMatches qLower ph then acc ++ phraseBlock ph else acc

/-- The loop of get_matching_phrases over one phrase section. -/
def matchSection (qLower : String) : List Phrase → List String → List String
  | [], acc => acc
  | ph :: rest, acc => matchSection qLower rest (phraseStep qLower ph acc)

/-- All phrases in the fixed section order used by get_matching_phrases:
classroom, daily interaction, cultural expressions. -/
def allPhrases (p : Phrases) : List Phrase :=
  p.classroom_phrases ++ p.daily_interaction ++ p.cultural_expressions

/-- The result elements collected by get_matching_phrases, section by
section in the fixed order of the source. -/
def phraseResults (p : Phrases) (query : String) : List String :=
  matchSection (lowerStr query) p.cultural_expressions
    (matchSection (lowerStr query) p.daily_interaction
      (matchSection (lowerStr query) p.classroom_phrases []))

/-- KnowledgeBase.get_matching_phrases. -/
def get_matching_phrases (p : Phrases) (query : String) : String :=
  if (phraseResults p query).isEmpty then "No se encontraron frases relevantes."
  else joinSep ("\n") (phraseResults p query)

/-- The dictionary-context assembly of Translator.translate_to_indigenous:
the full vocabulary context, extended with the matching-phrases block when
the phrase lookup returned a truthy (non-empty) string in which the marker
substring used to detect the no-results sentinel does not occur. -/
def full_dict_context (d : Dictionary) (p : Phrases) (spanish_text : String) : String :=
  if get_matching_phrases p spanish_text ≠ ""
      ∧ containsSub (get_matching_phrases p spanish_text) ("No se encontraron") = false then
    get_all_vocabulary_context d ++ "\n\nFRASES SIMILARES CONOCIDAS:\n" ++ get_matching_phrases p spanish_text
  else get_all_vocabulary_context d

/-- The category-to-section-key mapping of Translator.get_phrase_book. -/
def phraseBookMapping : List (String × String) :=
  [("classroom", "classroom_phrases"),
   ("daily", "daily_interaction"),
   ("cultural", "cultural_expressions")]

/-- Python phrases.get with empty-list default, over the three known
section keys of the phrase document. -/
def sectionOf (p : Phrases) (sectionKey : String) : List Phrase :=
  if sectionKey = "classroom_phrases" then p.classroom_phrases
  else if sectionKey = "daily_interaction" then p.daily_interaction
  else if sectionKey = "cultural_expressions" then p.cultural_expressions
  else []

/-- Translator.get_phrase_book.  The source gives category the default
value classroom. -/
def get_phrase_book (p : Phrases) (category : String) : List Phrase :=
  sectionOf p (((phraseBookMapping.find? (fun kv => kv.1 == category)).map (fun kv => kv.2)).getD ("classroom_phrases"))

/-- The dictionary obtained when dictionary.json is absent: the loader
returns the empty object and the categories mapping loads as empty. -/
def emptyDictionary : Dictionary := ⟨[]⟩

/-- The grammar document obtained when grammar.json is absent: the empty
object, which is falsy. -/
def emptyGrammarDoc : Option Grammar := none

/-- The phrase document obtained when phrases.json is absent: every
section loads as the empty list. -/
def emptyPhrases : Phrases := ⟨[], [], []⟩

/-- The count of entries over all category records, in the sense of the
nested search loops. -/
def totalEntries : List (String × Option Category) → Nat
  | [] => 0
  | kc :: rest => (entriesOfRec kc.2).length + totalEntries rest

/-- The formatted lines of all matching entries of one entry list, in
order, with no truncation. -/
def matchedLines (qLower : String) (es : List Entry) : List String :=
  (es.filter (fun e => entryMatches qLower e)).map entryLine

/-- The formatted lines of all matching entries over all categories, in
category-iteration order, with no truncation. -/
def allMatchedLines (qLower : String) : List (String × Option Category) → List String
  | [] => []
  | kc :: rest => matchedLines qLower (entriesOfRec kc.2) ++ allMatchedLines qLower rest

/-- A dictionary with two categories holding one matching entry each, used
to exercise the per-category break of search_dictionary. -/
def exTwoCatDict : Dictionary :=
  ⟨[("c1", some ⟨none, [⟨"aa", "x", none⟩]⟩),
    ("c2", some ⟨none, [⟨"ab", "y", none⟩]⟩)]⟩

/-- A dictionary with one category holding two entries that both match the
query used in the surrounding theorems. -/
def exOneCatDict : Dictionary :=
  ⟨[("c1", some ⟨none, [⟨"ba", "x", none⟩, ⟨"bb", "y", none⟩]⟩)]⟩

/-- A small dictionary with one named category and one entry. -/
def exDict : Dictionary :=
  ⟨[("familia", some ⟨some ("Familia"), [⟨"dukug", "madre", none⟩]⟩)]⟩

/-- A dictionary whose only category key maps to the empty object. -/
def exEmptyRecDict : Dictionary := ⟨[("vacia", none)]⟩

/-- A phrase book whose only phrase contains the sentinel-marker substring
in its source text. -/
def exCollidePhrases : Phrases :=
  ⟨[⟨"No se encontraron clases", "xyz", none⟩], [], []⟩

/-- A small phrase book with one ordinary classroom phrase. -/
def exPhrases : Phrases :=
  ⟨[⟨"hola", "wampi", none⟩], [], []⟩

theorem str_append_empty (a : String) : a ++ "" = a := by
  apply String.ext
  simp [String.data_append]

theorem head_append {α : Type} (l t : List α) (c : α) (h : l.head? = some c) :
    (l ++ t).head? = some c := by
  cases l with
  | nil => simp at h
  | cons a as => simpa using h

theorem ne_of_head (s t : String) (c d : Char) (hs : s.data.head? = some c)
    (ht : t.data.head? = some d) (hcd : c ≠ d) : s ≠ t := by
  intro h
  subst h
  rw [hs] at ht
  exact hcd (Option.some.inj ht)

theorem joinSep_cons_data (sep a : String) (l : List String) :
    ∃ t, (joinSep sep (a :: l)).data = a.data ++ t := by
  cases l with
  | nil => exact ⟨[], by simp [joinSep]⟩
  | cons b r =>
    exact ⟨sep.data ++ (joinSep sep (b :: r)).data, by simp [joinSep, String.data_append]⟩

theorem joinSep_head (sep a : String) (l : List String) (c : Char)
    (h : a.data.head? = some c) : (joinSep sep (a :: l)).data.head? = some c := by
  obtain ⟨t, ht⟩ := joinSep_cons_data sep a l
  rw [ht]
  exact head_append a.data t c h

theorem pairLine_head (e : Entry) : (pairLine e).data.head? = some ' ' := by
  have h2 : ("  ").data = [' ', ' '] := rfl
  simp [pairLine, String.data_append, h2]

theorem entryLine_head (e : Entry) : (entryLine e).data.head? = some ' ' := by
  rw [entryLine, String.data_append]
  exact head_append _ _ _ (pairLine_head e)

theorem phraseFirstLine_head (ph : Phrase) : (phraseFirstLine ph).data.head? = some ' ' := by
  have h2 : ("  ES: ").data = [' ', ' ', 'E', 'S', ':', ' '] := rfl
  simp [phraseFirstLine, String.data_append, h2]

theorem searchStep_eq (q : String) (e : Entry) (acc : List String) :
    ∃ u, searchStep q e acc = acc ++ u := by
  unfold searchStep
  by_cases h : entryMatches q e = true
  · exact ⟨[entryLine e], by simp [h]⟩
  · exact ⟨[], by simp [h]⟩

theorem searchCat_prefix (q : String) (m : Nat) (es : List Entry) (acc : List String) :
    ∃ t, searchCat q m es acc = acc ++ t := by
  induction es generalizing acc with
  | nil => exact ⟨[], by simp [searchCat]⟩
  | cons e rest ih =>
    obtain ⟨u, hu⟩ := searchStep_eq q e acc
    by_cases hc : m ≤ (searchStep q e acc).length
    · exact ⟨u, by rw [searchCat, if_pos hc, hu]⟩
    · obtain ⟨t, ht⟩ := ih (searchStep q e acc)
      refine ⟨u ++ t, ?_⟩
      rw [searchCat, if_neg hc, ht, hu, List.append_assoc]

theorem searchAll_prefix (q : String) (m : Nat) (cats : List (String × Option Category))
    (acc : List String) : ∃ t, searchAll q m cats acc = acc ++ t := by
  induction cats generalizing acc with
  | nil => exact ⟨[], by simp [searchAll]⟩
  | cons kc rest ih =>
    obtain ⟨u, hu⟩ := searchCat_prefix q m (entriesOfRec kc.2) acc
    obtain ⟨t, ht⟩ := ih (searchCat q m (entriesOfRec kc.2) acc)
    refine ⟨u ++ t, ?_⟩
    rw [searchAll, ht, hu, List.append_assoc]

theorem searchCat_nil_iff (q : String) (m : Nat) (hm : 1 ≤ m) (es : List Entry) :
    (searchCat q m es [] = [] ↔ ∀ e ∈ es, entryMatches q e = false) := by
  induction es with
  | nil => simp [searchCat]
  | cons e rest ih =>
    constructor
    · intro h
      by_cases hmatch : entryMatches q e = true
      · exfalso
        have hstep : searchStep q e [] = [entryLine e] := by simp [searchStep, hmatch]
        by_cases hc : m ≤ (searchStep q e []).length
        · rw [searchCat, if_pos hc, hstep] at h
          simp at h
        · rw [searchCat, if_neg hc] at h
          obtain ⟨t, ht⟩ := searchCat_prefix q m rest (searchStep q e [])
          rw [ht, hstep] at h
          simp at h
      · have hstep : searchStep q e [] = [] := by
          simp [searchStep, Bool.not_eq_true] at hmatch ⊢
          simp [hmatch]
        have hc : ¬ m ≤ (searchStep q e []).length := by
          rw [hstep]
          simp only [List.length_nil]
          omega
        rw [searchCat, if_neg hc, hstep] at h
        intro x hx
        rcases List.mem_cons.mp hx with hx1 | hx2
        · subst hx1
          exact Bool.not_eq_true _ ▸ (by simpa using hmatch)
        · exact (ih.mp h) x hx2
    · intro h
      have hmatch : entryMatches q e = false := h e (List.mem_cons_self e rest)
      have hstep : searchStep q e [] = [] := by simp [searchStep, hmatch]
      have hc : ¬ m ≤ (searchStep q e []).length := by
        rw [hstep]
        simp only [List.length_nil]
        omega
      rw [searchCat, if_neg hc, hstep]
      exact ih.mpr (fun x hx => h x (List.mem_cons_of_mem e hx))

theorem searchAll_nil_iff (q : String) (m : Nat) (hm : 1 ≤ m)
    (cats : List (String × Option Category)) :
    (searchAll q m cats [] = [] ↔
      ∀ kc ∈ cats, ∀ e ∈ entriesOfRec kc.2, entryMatches q e = false) := by
  induction cats with
  | nil => simp [searchAll]
  | cons kc rest ih =>
    rw [searchAll]
    constructor
    · intro h
      have hinner : searchCat q m (entriesOfRec kc.2) [] = [] := by
        obtain ⟨t, ht⟩ := searchAll_prefix q m rest (searchCat q m (entriesOfRec kc.2) [])
        rw [ht] at h
        exact List.append_eq_nil.mp h |>.1
      intro x hx
      rcases List.mem_cons.mp hx with hx1 | hx2
      · subst hx1
        exact (searchCat_nil_iff q m hm _).mp hinner
      · rw [hinner] at h
        exact (ih.mp h) x hx2
    · intro h
      have hinner : searchCat q m (entriesOfRec kc.2) [] = [] :=
        (searchCat_nil_iff q m hm _).mpr (h kc (List.mem_cons_self kc rest))
      rw [hinner]
      exact ih.mpr (fun x hx => h x (List.mem_cons_of_mem kc hx))

theorem searchCat_mem (q : String) (m : Nat) (es : List Entry) (acc : List String)
    (r : String) (hr : r ∈ searchCat q m es acc) :
    r ∈ acc ∨ ∃ e ∈ es, entryMatches q e = true ∧ r = entryLine e := by
  induction es generalizing acc with
  | nil =>
    rw [searchCat] at hr
    exact Or.inl hr
  | cons e rest ih =>
    have hstep : r ∈ searchStep q e acc →
        r ∈ acc ∨ ∃ x ∈ e :: rest, entryMatches q x = true ∧ r = entryLine x := by
      intro hmem
      unfold searchStep at hmem
      by_cases hmatch : entryMatches q e = true
      · rw [if_pos hmatch] at hmem
        rcases List.mem_append.mp hmem with h1 | h2
        · exact Or.inl h1
        · exact Or.inr ⟨e, List.mem_cons_self e rest, hmatch, by simpa using h2⟩
      · rw [if_neg hmatch] at hmem
        exact Or.inl hmem
    rw [searchCat] at hr
    by_cases hc : m ≤ (searchStep q e acc).length
    · rw [if_pos hc] at hr
      exact hstep hr
    · rw [if_neg hc] at hr
      rcases ih (searchStep q e acc) hr with h1 | ⟨x, hx, hmx, hrx⟩
      · exact hstep h1
      · exact Or.inr ⟨x, List.mem_cons_of_mem e hx, hmx, hrx⟩

theorem searchAll_mem (q : String) (m : Nat) (cats : List (String × Option Category))
    (acc : List String) (r : String) (hr : r ∈ searchAll q m cats acc) :
    r ∈ acc ∨ ∃ kc ∈ cats, ∃ e ∈ entriesOfRec kc.2, entryMatches q e = true ∧ r = entryLine e := by
  induction cats generalizing acc with
  | nil =>
    rw [searchAll] at hr
    exact Or.inl hr
  | cons kc rest ih =>
    rw [searchAll] at hr
    rcases ih (searchCat q m (entriesOfRec kc.2) acc) hr with h1 | ⟨x, hx, e, he, hme, hre⟩
    · rcases searchCat_mem q m (entriesOfRec kc.2) acc r h1 with h2 | ⟨e, he, hme, hre⟩
      · exact Or.inl h2
      · exact Or.inr ⟨kc, List.mem_cons_self kc rest, e, he, hme, hre⟩
    · exact Or.inr ⟨x, List.mem_cons_of_mem kc hx, e, he, hme, hre⟩

theorem searchCat_noTrunc (q : String) (m : Nat) (es : List Entry) (acc : List String)
    (h : acc.length + es.length ≤ m) :
    searchCat q m es acc = acc ++ matchedLines q es := by
  induction es generalizing acc with
  | nil => simp [searchCat, matchedLines]
  | cons e rest ih =>
    have hlen : (searchStep q e acc).length ≤ acc.length + 1 := by
      unfold searchStep
      by_cases hm : entryMatches q e = true <;> simp [hm]
    have hstep_ml : searchStep q e acc = acc ++ matchedLines q [e] := by
      unfold searchStep matchedLines
      by_cases hm : entryMatches q e = true <;> simp [hm]
    have hml_cons : matchedLines q (e :: rest) = matchedLines q [e] ++ matchedLines q rest := by
      unfold matchedLines
      by_cases hm : entryMatches q e = true <;> simp [hm, List.filter_cons]
    rw [searchCat]
    by_cases hc : m ≤ (searchStep q e acc).length
    · have hrestlen : rest.length = 0 := by
        have h1 := h
        simp only [List.length_cons] at h1
        have h2 := le_trans hc hlen
        omega
      have hrest : rest = [] := List.length_eq_zero.mp hrestlen
      subst hrest
      rw [if_pos hc, hstep_ml, hml_cons]
    · rw [if_neg hc]
      have h2 : (searchStep q e acc).length + rest.length ≤ m := by
        simp only [List.length_cons] at h
        omega
      rw [ih (searchStep q e acc) h2, hstep_ml, List.append_assoc, hml_cons]

theorem searchAll_noTrunc (q : String) (m : Nat) (cats : List (String × Option Category))
    (acc : List String) (h : acc.length + totalEntries cats ≤ m) :
    searchAll q m cats acc = acc ++ allMatchedLines q cats := by
  induction cats generalizing acc with
  | nil => simp [searchAll, allMatchedLines]
  | cons kc rest ih =>
    have hto : totalEntries (kc :: rest) = (entriesOfRec kc.2).length + totalEntries rest := rfl
    have h1 : acc.length + (entriesOfRec kc.2).length ≤ m := by
      rw [hto] at h
      omega
    have hml : (matchedLines q (entriesOfRec kc.2)).length ≤ (entriesOfRec kc.2).length := by
      unfold matchedLines
      simpa using List.length_filter_le _ _
    have h2 : (acc ++ matchedLines q (entriesOfRec kc.2)).length + totalEntries rest ≤ m := by
      rw [hto] at h
      simp only [List.length_append]
      omega
    rw [searchAll, searchCat_noTrunc q m _ acc h1, ih _ h2, List.append_assoc]
    rfl

theorem mem_allMatchedLines (q : String) (cats : List (String × Option Category))
    (kc : String × Option Category) (e : Entry) (hkc : kc ∈ cats)
    (he : e ∈ entriesOfRec kc.2) (hm : entryMatches q e = true) :
    entryLine e ∈ allMatchedLines q cats := by
  induction cats with
  | nil => simp at hkc
  | cons c rest ih =>
    rw [allMatchedLines]
    rcases List.mem_cons.mp hkc with h1 | h2
    · subst h1
      apply List.mem_append_left
      unfold matchedLines
      exact List.mem_map_of_mem _ (List.mem_filter.mpr ⟨he, hm⟩)
    · exact List.mem_append_right _ (ih h2)

theorem phraseStep_eq (q : String) (ph : Phrase) (acc : List String) :
    ∃ u, phraseStep q ph acc = acc ++ u := by
  unfold phraseStep
  by_cases h : phraseMatches q ph = true
  · exact ⟨phraseBlock ph, by simp [h]⟩
  · exact ⟨[], by simp [h]⟩

theorem matchSection_prefix (q : String) (phs : List Phrase) (acc : List String) :
    ∃ t, matchSection q phs acc = acc ++ t := by
  induction phs generalizing acc with
  | nil => exact ⟨[], by simp [matchSection]⟩
  | cons ph rest ih =>
    obtain ⟨u, hu⟩ := phraseStep_eq q ph acc
    obtain ⟨t, ht⟩ := ih (phraseStep q ph acc)
    refine ⟨u ++ t, ?_⟩
    rw [matchSection, ht, hu, List.append_assoc]

theorem matchSection_nil_iff (q : String) (phs : List Phrase) :
    (matchSection q phs [] = [] ↔ ∀ ph ∈ phs, phraseMatches q ph = false) := by
  induction phs with
  | nil => simp [matchSection]
  | cons ph rest ih =>
    rw [matchSection]
    constructor
    · intro h
      by_cases hm : phraseMatches q ph = true
      · exfalso
        have hstep : phraseStep q ph [] = phraseBlock ph := by simp [phraseStep, hm]
        obtain ⟨t, ht⟩ := matchSection_prefix q rest (phraseStep q ph [])
        rw [ht, hstep, phraseBlock] at h
        simp at h
      · have hstep : phraseStep q ph [] = [] := by simp [phraseStep, hm]
        rw [hstep] at h
        intro x hx
        rcases List.mem_cons.mp hx with h1 | h2
        · subst h1
          simpa using hm
        · exact (ih.mp h) x h2
    · intro h
      have hm : phraseMatches q ph = false := h ph (List.mem_cons_self ph rest)
      have hstep : phraseStep q ph [] = [] := by simp [phraseStep, hm]
      rw [hstep]
      exact ih.mpr (fun x hx => h x (List.mem_cons_of_mem ph hx))

theorem matchSection_nil_shape (q : String) (phs : List Phrase) :
    matchSection q phs [] = [] ∨
      ∃ ph t, matchSection q phs [] = phraseFirstLine ph :: t := by
  induction phs with
  | nil => exact Or.inl rfl
  | cons ph rest ih =>
    rw [matchSection]
    by_cases hm : phraseMatches q ph = true
    · have hstep : phraseStep q ph [] = phraseBlock ph := by simp [phraseStep, hm]
      obtain ⟨t, ht⟩ := matchSection_prefix q rest (phraseStep q ph [])
      rw [ht, hstep, phraseBlock]
      exact Or.inr ⟨ph, _, rfl⟩
    · have hstep : phraseStep q ph [] = [] := by simp [phraseStep, hm]
      rw [hstep]
      exact ih

theorem phraseResults_shape (p : Phrases) (query : String) :
    phraseResults p query = [] ∨
      ∃ ph t, phraseResults p query = phraseFirstLine ph :: t := by
  unfold phraseResults
  rcases matchSection_nil_shape (lowerStr query) p.classroom_phrases with h1 | ⟨ph, t, h1⟩
  · rw [h1]
    rcases matchSection_nil_shape (lowerStr query) p.daily_interaction with h2 | ⟨ph, t, h2⟩
    · rw [h2]
      exact matchSection_nil_shape _ _
    · rw [h2]
      obtain ⟨u, hu⟩ := matchSection_prefix (lowerStr query) p.cultural_expressions (phraseFirstLine ph :: t)
      rw [hu]
      exact Or.inr ⟨ph, t ++ u, by simp⟩
  · rw [h1]
    obtain ⟨u, hu⟩ := matchSection_prefix (lowerStr query) p.daily_interaction (phraseFirstLine ph :: t)
    rw [hu]
    obtain ⟨v, hv⟩ := matchSection_prefix (lowerStr query) p.cultural_expressions (phraseFirstLine ph :: t ++ u)
    rw [hv]
    refine Or.inr ⟨ph, t ++ u ++ v, by simp⟩

theorem phraseResults_nil_iff (p : Phrases) (query : String) :
    (phraseResults p query = [] ↔
      ∀ ph ∈ allPhrases p, phraseMatches (lowerStr query) ph = false) := by
  unfold phraseResults allPhrases
  constructor
  · intro h
    have hB : matchSection (lowerStr query) p.daily_interaction
        (matchSection (lowerStr query) p.classroom_phrases []) = [] := by
      obtain ⟨t, ht⟩ := matchSection_prefix (lowerStr query) p.cultural_expressions
        (matchSection (lowerStr query) p.daily_interaction
          (matchSection (lowerStr query) p.classroom_phrases []))
      rw [ht] at h
      exact (List.append_eq_nil.mp h).1
    have hA : matchSection (lowerStr query) p.classroom_phrases [] = [] := by
      obtain ⟨t, ht⟩ := matchSection_prefix (lowerStr query) p.daily_interaction
        (matchSection (lowerStr query) p.classroom_phrases [])
      rw [ht] at hB
      exact (List.append_eq_nil.mp hB).1
    have hBnil : matchSection (lowerStr query) p.daily_interaction [] = [] := by
      rw [hA] at hB
      exact hB
    have hCnil : matchSection (lowerStr query) p.cultural_expressions [] = [] := by
      rw [hA, hBnil] at h
      exact h
    intro ph hph
    rcases List.mem_append.mp hph with h1 | h2
    · rcases List.mem_append.mp h1 with h3 | h4
      · exact (matchSection_nil_iff _ _).mp hA ph h3
      · exact (matchSection_nil_iff _ _).mp hBnil ph h4
    · exact (matchSection_nil_iff _ _).mp hCnil ph h2
  · intro h
    have hA : matchSection (lowerStr query) p.classroom_phrases [] = [] :=
      (matchSection_nil_iff _ _).mpr
        (fun ph hph => h ph (List.mem_append.mpr (Or.inl (List.mem_append.mpr (Or.inl hph)))))
    have hB : matchSection (lowerStr query) p.daily_interaction [] = [] :=
      (matchSection_nil_iff _ _).mpr
        (fun ph hph => h ph (List.mem_append.mpr (Or.inl (List.mem_append.mpr (Or.inr hph)))))
    have hC : matchSection (lowerStr query) p.cultural_expressions [] = [] :=
      (matchSection_nil_iff _ _).mpr
        (fun ph hph => h ph (List.mem_append.mpr (Or.inr hph)))
    rw [hA, hB, hC]

theorem ne_empty_of_head (s : String) (c : Char) (h : s.data.head? = some c) : s ≠ "" := by
  intro h0
  subst h0
  simp at h

theorem get_matching_phrases_no_match (p : Phrases) (query : String)
    (h : ∀ ph ∈ allPhrases p, phraseMatches (lowerStr query) ph = false) :
    get_matching_phrases p query = "No se encontraron frases relevantes." := by
  unfold get_matching_phrases
  have h0 : phraseResults p query = [] := (phraseResults_nil_iff p query).mpr h
  rw [h0]
  rfl

theorem get_matching_phrases_head (p : Phrases) (query : String)
    (h : ∃ ph ∈ allPhrases p, phraseMatches (lowerStr query) ph = true) :
    (get_matching_phrases p query).data.head? = some ' ' := by
  have hne : phraseResults p query ≠ [] := by
    intro h0
    obtain ⟨ph, hmem, hm⟩ := h
    have hf := (phraseResults_nil_iff p query).mp h0 ph hmem
    rw [hm] at hf
    exact Bool.true_eq_false.mp hf |>.elim
  rcases phraseResults_shape p query with h0 | ⟨ph, t, hshape⟩
  · exact absurd h0 hne
  · unfold get_matching_phrases
    rw [hshape]
    simp only [List.isEmpty_cons, if_neg]
    exact joinSep_head _ _ _ _ (phraseFirstLine_head ph)

/-- C1: the claim says search stops collecting once max_results matches are
collected, so that the returned block lists at most max_results entries, and
the docstring of the source says the same; but the break leaves only the
inner per-category loop, so with max_results 1 a dictionary with two
matching categories yields two formatted entries. -/
theorem search_break_exceeds_max_results :
    (searchResults exTwoCatDict ("a") 1).length = 2
    ∧ search_dictionary exTwoCatDict ("a") 1 = "  aa = x\n  ab = y" := by
  constructor
  · decide
  · decide

/-- C2 (counterexample): with max_results 1 the second matching entry of the
single category is absent from the returned results although it matches, so
the claimed containment for every max_results of at least 1 fails. -/
theorem search_truncation_drops_match :
    (("c1", some (⟨none, [⟨"ba", "x", none⟩, ⟨"bb", "y", none⟩]⟩ : Category)) ∈ exOneCatDict.categories)
    ∧ entryMatches (lowerStr ("b")) ⟨"bb", "y", none⟩ = true
    ∧ entryLine ⟨"bb", "y", none⟩ ∉ searchResults exOneCatDict ("b") 1 := by
  refine ⟨by decide, by decide, by decide⟩

/-- C2 (amended): for every category of the dictionary and every entry of
that category whose lowercased source or target term contains the lowercased
query, the formatted line of the entry is among the returned search results,
provided max_results is at least the total number of entries over all
categories, so that no truncation occurs. -/
theorem search_contains_matching_entry (d : Dictionary) (kc : String × Option Category)
    (e : Entry) (q : String) (m : Nat) (hkc : kc ∈ d.categories)
    (he : e ∈ entriesOfRec kc.2) (hm : entryMatches (lowerStr q) e = true)
    (htot : totalEntries d.categories ≤ m) :
    entryLine e ∈ searchResults d q m := by
  unfold searchResults
  rw [searchAll_noTrunc (lowerStr q) m d.categories [] (by simpa using htot)]
  simpa using mem_allMatchedLines (lowerStr q) d.categories kc e hkc he hm

theorem search_contains_matching_entry_witness :
    entryLine ⟨"ba", "x", none⟩ ∈ searchResults exOneCatDict ("b") 2 :=
  search_contains_matching_entry exOneCatDict
    ("c1", some ⟨none, [⟨"ba", "x", none⟩, ⟨"bb", "y", none⟩]⟩)
    ⟨"ba", "x", none⟩ ("b") 2 (by decide) (by decide) (by decide) (by decide)

/-- C3: for every dictionary and query, and every positive max_results
(the source default is 10), search_dictionary returns the reserved
no-results sentinel exactly when no entry of any category contains the
lowercased query in its lowercased source or target term; the modelled
operation is total, so it never raises. -/
theorem search_sentinel_iff_no_match (d : Dictionary) (q : String) (m : Nat) (hm : 1 ≤ m) :
    (search_dictionary d q m = "No se encontraron entradas relevantes." ↔
      ∀ kc ∈ d.categories, ∀ e ∈ entriesOfRec kc.2, entryMatches (lowerStr q) e = false) := by
  unfold search_dictionary
  cases hres : searchResults d q m with
  | nil =>
    have hall : searchAll (lowerStr q) m d.categories [] = [] := by
      simpa [searchResults] using hres
    constructor
    · intro _
      exact (searchAll_nil_iff (lowerStr q) m hm d.categories).mp hall
    · intro _
      rfl
  | cons r rs =>
    have hrmem : r ∈ searchAll (lowerStr q) m d.categories [] := by
      have hr0 : r ∈ searchResults d q m := by
        rw [hres]
        exact List.mem_cons_self r rs
      simpa [searchResults] using hr0
    rcases searchAll_mem (lowerStr q) m d.categories [] r hrmem with h0 | ⟨kc, hkc, e, he, hme, hre⟩
    · simp at h0
    · have hred : (if (r :: rs).isEmpty = true then "No se encontraron entradas relevantes."
          else joinSep ("\n") (r :: rs)) = joinSep ("\n") (r :: rs) := rfl
      rw [hred]
      constructor
      · intro heq
        exfalso
        have hhead : (joinSep ("\n") (r :: rs)).data.head? = some ' ' := by
          apply joinSep_head
          rw [hre]
          exact entryLine_head e
        exact ne_of_head _ ("No se encontraron entradas relevantes.") ' ' 'N' hhead (by rfl) (by decide) heq
      · intro hall
        exfalso
        have := hall kc hkc e he
        rw [hme] at this
        exact Bool.true_eq_false.mp this

theorem search_sentinel_iff_no_match_witness :
    search_dictionary emptyDictionary ("zzz") 10 = "No se encontraron entradas relevantes." :=
  (search_sentinel_iff_no_match emptyDictionary ("zzz") 10 (by decide)).mpr (by simp [emptyDictionary])

/-- C6 (counterexample): on the dictionary loaded from an absent file the
full-vocabulary context operation returns the empty string, not a reserved
no-data sentinel string like the ones the other read operations return. -/
theorem empty_kb_all_vocab_empty_string :
    get_all_vocabulary_context emptyDictionary = "" := rfl

/-- C6 (amended): loading a language with all three data files absent gives
empty structures, and afterwards dictionary search, category vocabulary,
grammar context and phrase matching return their respective no-data
sentinel strings for every argument, while the full-vocabulary context
returns the empty string; all modelled operations are total, so none
raises. -/
theorem empty_kb_reads_amended :
    (∀ (q : String) (m : Nat),
        search_dictionary emptyDictionary q m = "No se encontraron entradas relevantes.")
    ∧ (∀ c : String, get_category_vocabulary emptyDictionary c =
        "Categoría \x27" ++ c ++ "\x27 no encontrada. Disponibles: ")
    ∧ get_all_vocabulary_context emptyDictionary = ""
    ∧ get_grammar_context emptyGrammarDoc = "No hay reglas gramaticales disponibles."
    ∧ (∀ q : String, get_matching_phrases emptyPhrases q = "No se encontraron frases relevantes.") := by
  refine ⟨fun q m => rfl, fun c => ?_, rfl, rfl, fun q => rfl⟩
  exact str_append_empty _

/-- C7: category vocabulary lookup with a key that is not among the loaded
category keys returns the soft-error message naming the key and listing all
available category keys joined by commas; the modelled operation is total,
so it never raises. -/
theorem unknown_category_lists_available (d : Dictionary) (key : String)
    (h : key ∉ keysOf d) :
    get_category_vocabulary d key =
      "Categoría \x27" ++ key ++ "\x27 no encontrada. Disponibles: " ++ joinSep (", ") (keysOf d) := by
  have hfind : d.categories.find? (fun kc => kc.1 == key) = none := by
    rw [List.find?_eq_none]
    intro kc hkc
    simp only [beq_iff_eq]
    intro heq
    exact h (List.mem_map.mpr ⟨kc, hkc, heq⟩)
  simp [get_category_vocabulary, lookupCat, hfind, notFoundMsg]

theorem unknown_category_lists_available_witness :
    get_category_vocabulary exDict ("otros") =
      "Categoría \x27otros\x27 no encontrada. Disponibles: familia" := by
  rw [unknown_category_lists_available exDict ("otros") (by decide)]
  decide

/-- C4 (counterexample): a phrase whose source text contains the marker
substring matches the query, so a phrase was found and the lookup did not
return the sentinel, yet the translator does not append the block because
the caller tests by substring containment instead of equality. -/
theorem translator_marker_collision :
    (∃ ph ∈ allPhrases exCollidePhrases, phraseMatches (lowerStr ("clases")) ph = true)
    ∧ full_dict_context emptyDictionary exCollidePhrases ("clases")
        = get_all_vocabulary_context emptyDictionary := by
  constructor
  · exact ⟨⟨"No se encontraron clases", "xyz", none⟩, by decide, by decide⟩
  · decide

/-- C4 (amended): the translator appends the matching-phrases block when a
phrase matches and the rendered block does not contain the marker substring
used by the caller, and appends nothing when no phrase matches; a genuine
match never renders a string equal to the sentinel, so the sentinel is
distinguishable by equality, but the substring test also suppresses genuine
blocks that happen to contain the marker. -/
theorem translator_appends_phrases_amended (d : Dictionary) (p : Phrases) (text : String) :
    ((∀ ph ∈ allPhrases p, phraseMatches (lowerStr text) ph = false) →
        full_dict_context d p text = get_all_vocabulary_context d)
    ∧ ((∃ ph ∈ allPhrases p, phraseMatches (lowerStr text) ph = true) →
        get_matching_phrases p text ≠ "No se encontraron frases relevantes."
        ∧ (containsSub (get_matching_phrases p text) ("No se encontraron") = false →
            full_dict_context d p text =
              get_all_vocabulary_context d ++ "\n\nFRASES SIMILARES CONOCIDAS:\n"
                ++ get_matching_phrases p text)) := by
  constructor
  · intro h
    have hmp : get_matching_phrases p text = "No se encontraron frases relevantes." :=
      get_matching_phrases_no_match p text h
    have hncond : ¬(get_matching_phrases p text ≠ ""
        ∧ containsSub (get_matching_phrases p text) ("No se encontraron") = false) := by
      intro hcond
      rcases hcond with ⟨hne, hcontains⟩
      rw [hmp] at hcontains
      exact absurd hcontains (by decide)
    unfold full_dict_context
    rw [if_neg hncond]
  · intro hex
    have hhead := get_matching_phrases_head p text hex
    have hne_sent : get_matching_phrases p text ≠ "No se encontraron frases relevantes." :=
      ne_of_head _ ("No se encontraron frases relevantes.") ' ' 'N' hhead (by rfl) (by decide)
    refine ⟨hne_sent, ?_⟩
    intro hnc
    have hcond : get_matching_phrases p text ≠ ""
        ∧ containsSub (get_matching_phrases p text) ("No se encontraron") = false :=
      ⟨ne_empty_of_head _ ' ' hhead, hnc⟩
    unfold full_dict_context
    rw [if_pos hcond]

theorem translator_appends_phrases_amended_witness :
    full_dict_context exDict exPhrases ("hola") =
      get_all_vocabulary_context exDict ++ "\n\nFRASES SIMILARES CONOCIDAS:\n"
        ++ get_matching_phrases exPhrases ("hola") :=
  ((translator_appends_phrases_amended exDict exPhrases ("hola")).2
    ⟨⟨"hola", "wampi", none⟩, by decide, by decide⟩).2 (by decide)

/-- C5: for a non-empty grammar document the grammar context is the newline
join of four independent section blocks in the fixed order word order, verb
conjugation, common suffixes, negation; a block is empty exactly when its
section data is absent or empty, so a section is rendered exactly when its
data is present; the completely empty grammar document yields the sentinel;
and a grammar with only the negation section populated renders exactly the
negation line and nothing else. -/
theorem grammar_sections_iff_present (gr : Grammar) :
    get_grammar_context (some gr) =
        joinSep ("\n") (woLines gr.word_order ++ vcLines gr.verb_conjugation
          ++ sufLines gr.suffixes ++ negLines gr.negation)
    ∧ (∀ o : Option WordOrder, (woLines o = [] ↔ o = none))
    ∧ (∀ o : Option VerbConjugation, (vcLines o = [] ↔ o = none))
    ∧ (∀ o : Option SuffixSection, (sufLines o = [] ↔ o = none))
    ∧ (∀ o : Option Negation, (negLines o = [] ↔ o = none))
    ∧ get_grammar_context none = "No hay reglas gramaticales disponibles."
    ∧ (∀ desc : String, get_grammar_context (some ⟨none, none, none, some ⟨desc⟩⟩)
        = "\nNEGACIÓN: " ++ desc) := by
  refine ⟨?_, ?_, ?_, ?_, ?_, rfl, fun desc => rfl⟩
  · rcases gr with ⟨wo, vc, sf, ng⟩
    cases wo <;> cases vc <;> cases sf <;> cases ng <;>
      simp [get_grammar_context, woLines, vcLines, sufLines, negLines]
  · intro o
    cases o <;> simp [woLines]
  · intro o
    cases o <;> simp [vcLines]
  · intro o
    cases o <;> simp [sufLines]
  · intro o
    cases o <;> simp [negLines]

theorem mem_allVocabLines (cats : List (String × Option Category))
    (kc : String × Option Category) (e : Entry) (hkc : kc ∈ cats)
    (he : e ∈ entriesOfRec kc.2) : pairLine e ∈ allVocabLines cats := by
  induction cats with
  | nil => simp at hkc
  | cons c rest ih =>
    rw [allVocabLines]
    rcases List.mem_cons.mp hkc with h1 | h2
    · subst h1
      exact List.mem_cons_of_mem _ (List.mem_append_left _ (List.mem_map_of_mem _ he))
    · exact List.mem_cons_of_mem _ (List.mem_append_right _ (ih h2))

/-- C8: every entry of every known category that the category-vocabulary
view renders also appears, through its bare term-pair line, among the lines
that the full-vocabulary context joins into its output. -/
theorem all_vocab_superset_of_category (d : Dictionary) (key : String) (cat : Category)
    (e : Entry) (hfind : lookupCat d.categories key = some cat) (he : e ∈ cat.entries) :
    pairLine e ∈ allVocabLines d.categories := by
  unfold lookupCat at hfind
  cases hf : d.categories.find? (fun kc => kc.1 == key) with
  | none =>
    rw [hf] at hfind
    simp at hfind
  | some kc =>
    rw [hf] at hfind
    have hfind2 : kc.2 = some cat := hfind
    have hmem : kc ∈ d.categories := List.mem_of_find?_eq_some hf
    apply mem_allVocabLines d.categories kc e hmem
    rw [hfind2]
    exact he

theorem all_vocab_superset_of_category_witness :
    pairLine ⟨"dukug", "madre", none⟩ ∈ allVocabLines exDict.categories :=
  all_vocab_superset_of_category exDict ("familia")
    ⟨some ("Familia"), [⟨"dukug", "madre", none⟩]⟩
    ⟨"dukug", "madre", none⟩ (by decide) (by decide)

/-- C9: the category-vocabulary lookup returns the not-found message
exactly when the looked-up category record is absent or the empty (falsy)
object; a present non-empty record always yields the labeled block, which
never equals the not-found message. -/
theorem category_not_found_iff_empty_or_absent (d : Dictionary) (key : String) :
    (get_category_vocabulary d key = notFoundMsg d key ↔ lookupCat d.categories key = none) := by
  cases hl : lookupCat d.categories key with
  | none =>
    constructor
    · intro _
      rfl
    · intro _
      unfold get_category_vocabulary
      rw [hl]
  | some cat =>
    constructor
    · intro heq
      exfalso
      unfold get_category_vocabulary at heq
      rw [hl] at heq
      have hhead : (joinSep ("\n") (("## " ++ cat.name_es.getD key)
          :: cat.entries.map entryLine)).data.head? = some '#' := by
        apply joinSep_head
        have h2 : ("## ").data = ['#', '#', ' '] := rfl
        simp [String.data_append, h2]
      have hnf : (notFoundMsg d key).data.head? = some 'C' := by
        unfold notFoundMsg
        rw [String.data_append]
        apply head_append
        rw [String.data_append]
        apply head_append
        rw [String.data_append]
        apply head_append
        rfl
      exact ne_of_head _ _ '#' 'C' hhead hnf (by decide) heq
    · intro h
      simp at h

theorem category_not_found_iff_empty_or_absent_witness :
    get_category_vocabulary exEmptyRecDict ("vacia") = notFoundMsg exEmptyRecDict ("vacia") :=
  (category_not_found_iff_empty_or_absent exEmptyRecDict ("vacia")).mpr (by decide)

/-- C10: get_phrase_book with a category string other than the three
recognized names falls back to the classroom-phrases section; the modelled
operation is total, so it never raises. -/
theorem phrase_book_unknown_falls_back (p : Phrases) (category : String)
    (h1 : category ≠ "classroom") (h2 : category ≠ "daily") (h3 : category ≠ "cultural") :
    get_phrase_book p category = p.classroom_phrases := by
  have b1 : (("classroom" : String) == category) = false :=
    beq_eq_false_iff_ne.mpr (Ne.symm h1)
  have b2 : (("daily" : String) == category) = false :=
    beq_eq_false_iff_ne.mpr (Ne.symm h2)
  have b3 : (("cultural" : String) == category) = false :=
    beq_eq_false_iff_ne.mpr (Ne.symm h3)
  unfold get_phrase_book phraseBookMapping
  simp [List.find?, b1, b2, b3, sectionOf]

theorem phrase_book_unknown_falls_back_witness :
    get_phrase_book exPhrases ("otra") = exPhrases.classroom_phrases :=
  phrase_book_unknown_falls_back exPhrases ("otra") (by decide) (by decide) (by decide)
